import Mathlib

/-!
Verification of `evaluation/python/generate_masks.py`.

The script is a linear batch pipeline: load a segmentation model, enumerate
`images/*.jpg` in sorted order, and for each file decode, EXIF-correct,
resize to 256x256, normalize to [-1,1], run one forward pass, squeeze and
clip the output into [0,1], scale to 8-bit and save `masks/<stem>.png`.

Embedding conventions:
  * pixel channel values are natural numbers (bytes, bounded by 255 when the
    image is well formed); floating-point quantities are modelled by `ℚ`;
  * the PIL / numpy library calls the script makes (`exif_transpose`,
    `resize(..., BILINEAR)`, `np.squeeze`, `np.clip`, `astype(np.uint8)`)
    are modelled by explicit functions with their documented semantics;
  * the TFLite interpreter is an opaque function from input tensors to raw
    output arrays; loading it can fail, which is modelled by `Option`;
  * filenames are lists of characters (Python compares and sorts path names
    lexicographically by code point), and the `masks/` directory is a map
    from filename to saved byte content.
-/

/-- Constant `INPUT_WIDTH = 256` from the script. -/
def INPUT_WIDTH : Nat := 256

/-- Constant `INPUT_HEIGHT = 256` from the script. -/
def INPUT_HEIGHT : Nat := 256

/-- An in-memory RGB raster as produced by `Image.open(...).convert("RGB")`:
a width, a height, a per-channel byte value for every coordinate (the
function is total on `Int`; well-formedness bounds its values), and the EXIF
orientation tag carried in the image metadata (0 encodes an absent tag;
1..8 are the EXIF orientation values). -/
structure PILImage where
  width : Nat
  height : Nat
  pixel : Int → Int → Fin 3 → Nat
  exifOrientation : Nat

/-- A decoded image is byte-valued: every channel sample fits in one byte. -/
def PILImage.ByteBounded (img : PILImage) : Prop :=
  ∀ x y c, img.pixel x y c ≤ 255

/-- Model of `ImageOps.exif_transpose`: if the orientation tag is one of
2..8 the corresponding flip/rotation is applied to the pixel grid and the
orientation tag is removed from the result (encoded here as tag 1, the
upright orientation); for any other tag value the image is returned
unchanged.  Orientations: 2 mirror, 3 rotate 180, 4 vertical flip,
5 transpose, 6 rotate 270 (CCW), 7 transverse, 8 rotate 90 (CCW). -/
def exifTranspose (img : PILImage) : PILImage :=
  match img.exifOrientation with
  | 2 => ⟨img.width, img.height,
          fun x y c => img.pixel ((img.width : Int) - 1 - x) y c, 1⟩
  | 3 => ⟨img.width, img.height,
          fun x y c => img.pixel ((img.width : Int) - 1 - x) ((img.height : Int) - 1 - y) c, 1⟩
  | 4 => ⟨img.width, img.height,
          fun x y c => img.pixel x ((img.height : Int) - 1 - y) c, 1⟩
  | 5 => ⟨img.height, img.width,
          fun x y c => img.pixel y x c, 1⟩
  | 6 => ⟨img.height, img.width,
          fun x y c => img.pixel y ((img.height : Int) - 1 - x) c, 1⟩
  | 7 => ⟨img.height, img.width,
          fun x y c => img.pixel ((img.width : Int) - 1 - y) ((img.height : Int) - 1 - x) c, 1⟩
  | 8 => ⟨img.height, img.width,
          fun x y c => img.pixel ((img.width : Int) - 1 - y) x c, 1⟩
  | _ => img

/-- Clamp a sampling coordinate into `[0, size-1]` (edge handling of the
resampler at the image border). -/
def clampIdx (v : Int) (size : Nat) : Int :=
  max 0 (min v ((size : Int) - 1))

/-- Read a source pixel with coordinates clamped into the raster. -/
def pixelClamped (img : PILImage) (x y : Int) (c : Fin 3) : Nat :=
  img.pixel (clampIdx x img.width) (clampIdx y img.height) c

/-- Center of destination pixel `outIdx` mapped back into source
coordinates for a resize from `srcSize` to `outSize` samples. -/
def srcCoord (outIdx : Nat) (outSize srcSize : Nat) : ℚ :=
  (((outIdx : ℚ) + 1 / 2) * (srcSize : ℚ)) / (outSize : ℚ) - 1 / 2

/-- Bilinear sample of the source image at destination pixel `(x, y)`:
the weighted average of the four nearest source pixels, with weights the
fractional parts of the back-mapped coordinate. -/
def bilinearSample (img : PILImage) (x y : Nat) (c : Fin 3) : ℚ :=
  (1 - Int.fract (srcCoord y INPUT_HEIGHT img.height)) *
      ((1 - Int.fract (srcCoord x INPUT_WIDTH img.width)) *
          (pixelClamped img ⌊srcCoord x INPUT_WIDTH img.width⌋
            ⌊srcCoord y INPUT_HEIGHT img.height⌋ c : ℚ)
        + Int.fract (srcCoord x INPUT_WIDTH img.width) *
          (pixelClamped img (⌊srcCoord x INPUT_WIDTH img.width⌋ + 1)
            ⌊srcCoord y INPUT_HEIGHT img.height⌋ c : ℚ))
    + Int.fract (srcCoord y INPUT_HEIGHT img.height) *
      ((1 - Int.fract (srcCoord x INPUT_WIDTH img.width)) *
          (pixelClamped img ⌊srcCoord x INPUT_WIDTH img.width⌋
            (⌊srcCoord y INPUT_HEIGHT img.height⌋ + 1) c : ℚ)
        + Int.fract (srcCoord x INPUT_WIDTH img.width) *
          (pixelClamped img (⌊srcCoord x INPUT_WIDTH img.width⌋ + 1)
            (⌊srcCoord y INPUT_HEIGHT img.height⌋ + 1) c : ℚ))

/-- Round to nearest integer, halves up (quantization of a resampled value
back to a byte). -/
def roundHalfUp (q : ℚ) : Int :=
  ⌊q + 1 / 2⌋

/-- Model of `img.resize((INPUT_WIDTH, INPUT_HEIGHT), Image.BILINEAR)`:
a 256x256 raster whose pixels are rounded bilinear samples of the source.
PIL copies the image metadata (`info`) to the resized copy, so the EXIF
orientation tag is preserved. -/
def resizeBilinear (img : PILImage) : PILImage :=
  ⟨INPUT_WIDTH, INPUT_HEIGHT,
   fun x y c => (roundHalfUp (bilinearSample img x.toNat y.toNat c)).toNat,
   img.exifOrientation⟩

/-- `get_resized_image` from the script, applied to the decoded RGB image:
`convert("RGB")` is the identity on an RGB raster, then
`ImageOps.exif_transpose`, then `resize((256, 256), Image.BILINEAR)`. -/
def get_resized_image (img : PILImage) : PILImage :=
  resizeBilinear (exifTranspose img)

/-- The `(img_np - 127.5) / 127.5` normalization from `preprocess_image`. -/
def normalizePixel (p : ℚ) : ℚ :=
  (p - 127.5) / 127.5

/-- Inverse of the normalization, `n * 127.5 + 127.5` (from the spec's
invertibility property). -/
def denormalize (q : ℚ) : ℚ :=
  q * 127.5 + 127.5

/-- A 4-dimensional numeric buffer: dimensions plus an indexing function
(indices beyond the dimensions return junk values). -/
structure Tensor4 where
  dims : Nat × Nat × Nat × Nat
  val : Nat → Nat → Nat → Nat → ℚ

/-- `preprocess_image` from the script: `np.asarray(img)` has shape
`(height, width, 3)` and is indexed `[y][x][channel]`; every entry is
normalized and a leading batch axis of size 1 is added by
`np.expand_dims(..., axis=0)`. -/
def preprocess_image (img : PILImage) : Tensor4 :=
  ⟨(1, img.height, img.width, 3),
   fun _b y x c => normalizePixel (img.pixel (x : Int) (y : Int) ⟨c % 3, Nat.mod_lt c (by norm_num)⟩)⟩

/-- A numpy array: a shape (list of dimension sizes) and the flat data in
row-major order.  Reshaping operations such as `np.squeeze` change the
shape and keep the flat data. -/
structure NPArray where
  shape : List Nat
  data : List ℚ

/-- Model of `np.clip(q, 0, 1)` on one element. -/
def clip01 (q : ℚ) : ℚ :=
  min 1 (max 0 q)

/-- `postprocess_output` from the script: `np.squeeze` drops every axis of
size 1 (`astype(np.float32)` is the identity in this rational model), then
`np.clip(output, 0, 1)` clips every element into `[0, 1]`. -/
def postprocess_output (a : NPArray) : NPArray :=
  ⟨a.shape.filter (fun d => d != 1), a.data.map clip01⟩

/-- The loaded TFLite interpreter, consumed only through one forward pass:
an opaque deterministic function from the input tensor to the raw output
array (`set_tensor`, `invoke`, `get_tensor`). -/
def SegModel : Type :=
  Tensor4 → NPArray

/-- `get_segmentation_mask` from the script: preprocess, one forward pass
through the interpreter, postprocess. -/
def get_segmentation_mask (mdl : SegModel) (img : PILImage) : NPArray :=
  postprocess_output (mdl (preprocess_image img))

/-- Truncation of a rational toward zero (semantics of a C float-to-integer
cast, which is what `astype` performs elementwise). -/
def ratTruncate (q : ℚ) : Int :=
  if 0 ≤ q then ⌊q⌋ else ⌈q⌉

/-- Model of numpy `astype(np.uint8)` on one element: truncate toward zero
and wrap modulo 256. -/
def npUint8 (q : ℚ) : Nat :=
  (ratTruncate q % 256).toNat

/-- The `(mask * 255).astype(np.uint8)` scaling in the batch loop: the byte
content handed to `Image.fromarray(...).save`. -/
def maskToBytes (a : NPArray) : List Nat :=
  a.data.map (fun q => npUint8 (q * 255))

/-- A filename, as the list of its characters.  Python compares path names
in the same directory lexicographically by code point, which is the
lexicographic order on `List Char`. -/
abbrev FileName : Type :=
  List Char

/-- The characters of the extension `.jpg`. -/
def jpgExt : FileName :=
  ['.', 'j', 'p', 'g']

/-- The characters of the extension `.png`. -/
def pngExt : FileName :=
  ['.', 'p', 'n', 'g']

/-- Whether a filename matches the glob pattern `*.jpg`. -/
def hasJpgExt (n : FileName) : Bool :=
  List.isSuffixOf jpgExt n

/-- Model of `pathlib.Path.stem`: the filename with its final suffix
removed, where the final suffix starts at the last dot, provided that dot
is neither the first nor the last character. -/
def stem (s : FileName) : FileName :=
  let k := (s.reverse.takeWhile (fun ch => ch != '.')).length
  if 1 ≤ k ∧ k + 2 ≤ s.length then s.take (s.length - k - 1) else s

/-- The filesystem state the script touches: the listing of the
`images/` directory (filename together with its decoded content, `none`
when the file is corrupt or undecodable) and the contents of the `masks/`
directory as a map from filename to saved bytes. -/
structure FileSystem where
  images : List (FileName × Option PILImage)
  masks : FileName → Option (List Nat)

/-- Decode the image stored under filename `n` (`Image.open`): `none` when
the name is absent or its content is undecodable. -/
def lookupImg (imgs : List (FileName × Option PILImage)) (n : FileName) : Option PILImage :=
  (imgs.lookup n).bind id

/-- The names processed by the batch loop,
`sorted(img_input_dir.glob("*.jpg"))`: the `*.jpg` entries of the
`images/` listing in lexicographic sorted order. -/
def jpgNames (fs : FileSystem) : List FileName :=
  List.insertionSort (· ≤ ·) ((fs.images.map Prod.fst).filter hasJpgExt)

/-- The per-file pipeline of the batch loop body applied to a decoded
image: `get_resized_image`, the (redundant) second `exif_transpose`,
`get_segmentation_mask`, and the `(mask * 255).astype(np.uint8)` scaling
of the saved bytes. -/
def processImage (mdl : SegModel) (img : PILImage) : List Nat :=
  maskToBytes (get_segmentation_mask mdl (exifTranspose (get_resized_image img)))

/-- Write one file into a directory map (`Image.save` overwrites). -/
def writeFile (m : FileName → Option (List Nat)) (n : FileName) (d : List Nat) :
    FileName → Option (List Nat) :=
  fun k => if k = n then some d else m k

/-- Apply a sequence of file writes in order. -/
def applyWrites (m : FileName → Option (List Nat)) (ws : List (FileName × List Nat)) :
    FileName → Option (List Nat) :=
  ws.foldl (fun acc w => writeFile acc w.1 w.2) m

/-- The batch loop over the already-sorted name list: for each name decode
the image and save `stem + ".png"`; a failed decode raises, which aborts
the loop with the writes performed so far (second component `false`).
Returns the ordered list of writes and whether the run completed. -/
def runBatch (mdl : SegModel) (imgs : List (FileName × Option PILImage)) :
    List FileName → List (FileName × List Nat) × Bool
  | [] => ([], true)
  | n :: rest =>
    match lookupImg imgs n with
    | none => ([], false)
    | some img =>
      let r := runBatch mdl imgs rest
      ((stem n ++ pngExt, processImage mdl img) :: r.1, r.2)

/-- The whole script run: loading the interpreter can fail (`none`), which
is fatal before the loop is reached and leaves the filesystem unchanged;
otherwise the batch loop writes every produced mask into `masks/`.
Returns the final filesystem and whether the run completed without error. -/
def runScript (mdl : Option SegModel) (fs : FileSystem) : FileSystem × Bool :=
  match mdl with
  | none => (fs, false)
  | some m =>
    let r := runBatch m fs.images (jpgNames fs)
    (⟨fs.images, applyWrites fs.masks r.1⟩, r.2)

/-- Linear interpolation between two values of `[0, 255]` with a weight in
`[0, 1]` stays in `[0, 255]`. -/
lemma lerp_bounds {t u v : ℚ} (ht0 : 0 ≤ t) (ht1 : t ≤ 1)
    (hu0 : 0 ≤ u) (hu1 : u ≤ 255) (hv0 : 0 ≤ v) (hv1 : v ≤ 255) :
    0 ≤ (1 - t) * u + t * v ∧ (1 - t) * u + t * v ≤ 255 := by
  constructor
  · have h1 : 0 ≤ (1 - t) * u := mul_nonneg (by linarith) hu0
    have h2 : 0 ≤ t * v := mul_nonneg ht0 hv0
    linarith
  · have h1 : (1 - t) * u ≤ (1 - t) * 255 :=
      mul_le_mul_of_nonneg_left hu1 (by linarith)
    have h2 : t * v ≤ t * 255 := mul_le_mul_of_nonneg_left hv1 ht0
    nlinarith

/-- A clamped pixel read of a byte-valued image is in `[0, 255]` (as a
rational). -/
lemma pixelClamped_bounds (img : PILImage) (h : img.ByteBounded) (x y : Int) (c : Fin 3) :
    0 ≤ (pixelClamped img x y c : ℚ) ∧ (pixelClamped img x y c : ℚ) ≤ 255 :=
  ⟨Nat.cast_nonneg _, by exact_mod_cast h (clampIdx x img.width) (clampIdx y img.height) c⟩

/-- A bilinear sample of a byte-valued image stays in `[0, 255]`. -/
lemma bilinearSample_bounds (img : PILImage) (h : img.ByteBounded) (x y : Nat) (c : Fin 3) :
    0 ≤ bilinearSample img x y c ∧ bilinearSample img x y c ≤ 255 := by
  have hx0 : 0 ≤ Int.fract (srcCoord x INPUT_WIDTH img.width) := Int.fract_nonneg _
  have hx1 : Int.fract (srcCoord x INPUT_WIDTH img.width) ≤ 1 := (Int.fract_lt_one _).le
  have hy0 : 0 ≤ Int.fract (srcCoord y INPUT_HEIGHT img.height) := Int.fract_nonneg _
  have hy1 : Int.fract (srcCoord y INPUT_HEIGHT img.height) ≤ 1 := (Int.fract_lt_one _).le
  have hb := pixelClamped_bounds img h
  unfold bilinearSample
  have hrow1 := lerp_bounds hx0 hx1
    (hb ⌊srcCoord x INPUT_WIDTH img.width⌋ ⌊srcCoord y INPUT_HEIGHT img.height⌋ c).1
    (hb ⌊srcCoord x INPUT_WIDTH img.width⌋ ⌊srcCoord y INPUT_HEIGHT img.height⌋ c).2
    (hb (⌊srcCoord x INPUT_WIDTH img.width⌋ + 1) ⌊srcCoord y INPUT_HEIGHT img.height⌋ c).1
    (hb (⌊srcCoord x INPUT_WIDTH img.width⌋ + 1) ⌊srcCoord y INPUT_HEIGHT img.height⌋ c).2
  have hrow2 := lerp_bounds hx0 hx1
    (hb ⌊srcCoord x INPUT_WIDTH img.width⌋ (⌊srcCoord y INPUT_HEIGHT img.height⌋ + 1) c).1
    (hb ⌊srcCoord x INPUT_WIDTH img.width⌋ (⌊srcCoord y INPUT_HEIGHT img.height⌋ + 1) c).2
    (hb (⌊srcCoord x INPUT_WIDTH img.width⌋ + 1) (⌊srcCoord y INPUT_HEIGHT img.height⌋ + 1) c).1
    (hb (⌊srcCoord x INPUT_WIDTH img.width⌋ + 1) (⌊srcCoord y INPUT_HEIGHT img.height⌋ + 1) c).2
  exact lerp_bounds hy0 hy1 hrow1.1 hrow1.2 hrow2.1 hrow2.2

/-- Resizing a byte-valued image yields a byte-valued image. -/
lemma resizeBilinear_byteBounded (img : PILImage) (h : img.ByteBounded) :
    (resizeBilinear img).ByteBounded := by
  intro x y c
  show (roundHalfUp (bilinearSample img x.toNat y.toNat c)).toNat ≤ 255
  obtain ⟨h0, h1⟩ := bilinearSample_bounds img h x.toNat y.toNat c
  unfold roundHalfUp
  rw [Int.toNat_le]
  have h2 : bilinearSample img x.toNat y.toNat c + 1 / 2 < 256 := by linarith
  have h3 : ⌊bilinearSample img x.toNat y.toNat c + 1 / 2⌋ < (256 : Int) :=
    Int.floor_lt.mpr (by exact_mod_cast h2)
  omega

/-- EXIF-orientation correction permutes pixels, so it preserves
byte-valuedness. -/
lemma exifTranspose_byteBounded (img : PILImage) (h : img.ByteBounded) :
    (exifTranspose img).ByteBounded := by
  rcases img with ⟨w, ht, p, o⟩
  rcases o with _ | _ | _ | _ | _ | _ | _ | _ | _ | o <;>
    intro x y c <;> exact h _ _ _

/-- The normalization maps a byte value into `[-1, 1]`. -/
lemma normalizePixel_bounds {p : ℚ} (h0 : 0 ≤ p) (h255 : p ≤ 255) :
    -1 ≤ normalizePixel p ∧ normalizePixel p ≤ 1 := by
  unfold normalizePixel
  constructor
  · rw [le_div_iff₀ (by norm_num : (0:ℚ) < 127.5)]
    linarith
  · rw [div_le_one₀ (by norm_num : (0:ℚ) < 127.5)]
    linarith

/-- A small concrete decodable image used to instantiate the theorems. -/
def constImg : PILImage :=
  ⟨2, 2, fun _ _ _ => 100, 0⟩

/-- The concrete image is byte-valued. -/
lemma constImg_byteBounded : constImg.ByteBounded :=
  fun _ _ _ => by norm_num [constImg]

/-- Claim C1: for every valid (decodable) JPEG input image of any width and
height, the preprocessed tensor produced by resizing to 256x256 and
normalizing each byte value `p` as `(p - 127.5) / 127.5` has shape
`(1, 256, 256, 3)` and every element lies in the closed interval
`[-1, 1]`. -/
theorem claim_C1 (img : PILImage) (h : img.ByteBounded) :
    (preprocess_image (get_resized_image img)).dims = (1, 256, 256, 3) ∧
    ∀ b y x c, b < 1 → y < 256 → x < 256 → c < 3 →
      -1 ≤ (preprocess_image (get_resized_image img)).val b y x c ∧
        (preprocess_image (get_resized_image img)).val b y x c ≤ 1 := by
  have hb : (get_resized_image img).ByteBounded :=
    resizeBilinear_byteBounded _ (exifTranspose_byteBounded _ h)
  refine ⟨rfl, ?_⟩
  intro b y x c _ _ _ _
  have hp := hb (x : Int) (y : Int) ⟨c % 3, Nat.mod_lt c (by norm_num)⟩
  exact normalizePixel_bounds (Nat.cast_nonneg _) (by exact_mod_cast hp)

/-- Witness for C1 on a concrete image. -/
theorem claim_C1_witness :
    constImg.ByteBounded ∧
    ((preprocess_image (get_resized_image constImg)).dims = (1, 256, 256, 3) ∧
      ∀ b y x c, b < 1 → y < 256 → x < 256 → c < 3 →
        -1 ≤ (preprocess_image (get_resized_image constImg)).val b y x c ∧
          (preprocess_image (get_resized_image constImg)).val b y x c ≤ 1) :=
  ⟨constImg_byteBounded, claim_C1 constImg constImg_byteBounded⟩

/-- Claim C5: normalization is invertible up to quantization: for every
byte value `x` in `[0, 255]`, normalizing and then applying the inverse
mapping `n * 127.5 + 127.5` rounds back to within 1 unit of `x` (in this
exact model the round-trip is exact, hence certainly within 1). -/
theorem claim_C5 (x : Nat) (_h : x ≤ 255) :
    |(roundHalfUp (denormalize (normalizePixel (x : ℚ))) : ℚ) - (x : ℚ)| ≤ 1 := by
  have hd : denormalize (normalizePixel (x : ℚ)) = (x : ℚ) := by
    unfold denormalize normalizePixel
    rw [div_mul_cancel₀ _ (by norm_num : (127.5 : ℚ) ≠ 0)]
    ring
  rw [hd]
  have hr : roundHalfUp (x : ℚ) = (x : Int) := by
    unfold roundHalfUp
    rw [Int.floor_eq_iff]
    constructor
    · push_cast
      linarith
    · push_cast
      linarith
  rw [hr]
  push_cast
  rw [sub_self, abs_zero]
  norm_num

/-- Witness for C5 at the byte value 200. -/
theorem claim_C5_witness :
    (200 : Nat) ≤ 255 ∧
      |(roundHalfUp (denormalize (normalizePixel ((200 : Nat) : ℚ))) : ℚ) - ((200 : Nat) : ℚ)| ≤ 1 :=
  ⟨by norm_num, claim_C5 200 (by norm_num)⟩

/-- Removing the axes of size 1 does not change the product of the
dimensions. -/
lemma prod_filter_ne_one (l : List Nat) :
    (l.filter (fun d => d != 1)).prod = l.prod := by
  induction l with
  | nil => rfl
  | cons d t ih =>
    by_cases hd : d = 1
    · subst hd
      simp [List.filter_cons, ih]
    · simp [List.filter_cons, hd, ih]

/-- Claim C2: for every raw model output array whose non-singleton
dimensions are exactly 256 and 256, postprocessing drops the singleton
dimensions and clips every element into `[0, 1]`, so the result has shape
`(256, 256)` (with the full 256*256 elements) and all values lie in
`[0, 1]` even when the raw output contains out-of-range values
(e.g. -0.2 becomes 0 and 1.3 becomes 1). -/
theorem claim_C2 (a : NPArray) (hlen : a.data.length = a.shape.prod)
    (hshape : a.shape.filter (fun d => d != 1) = [256, 256]) :
    (postprocess_output a).shape = [256, 256] ∧
    (postprocess_output a).data.length = 256 * 256 ∧
    (∀ q ∈ (postprocess_output a).data, 0 ≤ q ∧ q ≤ 1) ∧
    clip01 (-0.2) = 0 ∧ clip01 1.3 = 1 := by
  refine ⟨hshape, ?_, ?_, ?_, ?_⟩
  · show (a.data.map clip01).length = 256 * 256
    rw [List.length_map, hlen, ← prod_filter_ne_one a.shape, hshape]
    rfl
  · intro q hq
    rw [show (postprocess_output a).data = a.data.map clip01 from rfl, List.mem_map] at hq
    obtain ⟨p, _, rfl⟩ := hq
    unfold clip01
    exact ⟨le_min (by norm_num) (le_max_left 0 p), min_le_left 1 _⟩
  · unfold clip01
    rw [max_eq_left (by norm_num : (-0.2 : ℚ) ≤ 0), min_eq_right (by norm_num : (0 : ℚ) ≤ 1)]
  · unfold clip01
    rw [max_eq_right (by norm_num : (0 : ℚ) ≤ 1.3), min_eq_left (by norm_num : (1 : ℚ) ≤ 1.3)]

/-- A concrete raw output array of shape `(1, 256, 256)`. -/
def cArray : NPArray :=
  ⟨[1, 256, 256], List.replicate (256 * 256) (1 / 2)⟩

/-- The concrete array has as many elements as its shape dictates. -/
lemma cArray_length : cArray.data.length = cArray.shape.prod := by
  show (List.replicate (256 * 256) ((1 : ℚ) / 2)).length = [1, 256, 256].prod
  rw [List.length_replicate]
  norm_num [List.prod_cons, List.prod_nil]

/-- Witness for C2 on the concrete array. -/
theorem claim_C2_witness :
    cArray.data.length = cArray.shape.prod ∧
    cArray.shape.filter (fun d => d != 1) = [256, 256] ∧
    ((postprocess_output cArray).shape = [256, 256] ∧
      (postprocess_output cArray).data.length = 256 * 256 ∧
      (∀ q ∈ (postprocess_output cArray).data, 0 ≤ q ∧ q ≤ 1) ∧
      clip01 (-0.2) = 0 ∧ clip01 1.3 = 1) :=
  ⟨cArray_length, rfl, claim_C2 cArray cArray_length rfl⟩

/-- Claim C6: for every postprocessed mask whose values all lie in
`[0, 1]`, the persistence step scales it to 8-bit: each element `m` is
mapped to the uint8 value of `m * 255` — which equals the plain truncation
`⌊m * 255⌋` with no wraparound modulo 256 — every resulting byte lies in
`[0, 255]`, `0` is mapped to `0` and `1` is mapped to `255`. -/
theorem claim_C6 (a : NPArray) (h : ∀ q ∈ a.data, 0 ≤ q ∧ q ≤ 1) :
    maskToBytes a = a.data.map (fun q => (⌊q * 255⌋).toNat) ∧
    (∀ b ∈ maskToBytes a, b ≤ 255) ∧
    npUint8 ((0 : ℚ) * 255) = 0 ∧ npUint8 ((1 : ℚ) * 255) = 255 := by
  have key : ∀ q : ℚ, 0 ≤ q → q ≤ 1 →
      npUint8 (q * 255) = (⌊q * 255⌋).toNat ∧ (⌊q * 255⌋).toNat ≤ 255 := by
    intro q h0 h1
    have hq0 : (0 : ℚ) ≤ q * 255 := by positivity
    have hq1 : q * 255 ≤ 255 := by nlinarith
    have hf0 : (0 : Int) ≤ ⌊q * 255⌋ := Int.floor_nonneg.mpr hq0
    have hf1 : ⌊q * 255⌋ ≤ 255 := by
      calc ⌊q * 255⌋ ≤ ⌊(255 : ℚ)⌋ := Int.floor_le_floor hq1
        _ = 255 := by norm_num
    constructor
    · unfold npUint8 ratTruncate
      rw [if_pos hq0, Int.emod_eq_of_lt hf0 (by omega)]
    · rw [Int.toNat_le]
      exact_mod_cast hf1
  refine ⟨?_, ?_, ?_, ?_⟩
  · unfold maskToBytes
    apply List.map_congr_left
    intro q hq
    exact (key q (h q hq).1 (h q hq).2).1
  · intro b hb
    unfold maskToBytes at hb
    rw [List.mem_map] at hb
    obtain ⟨q, hq, rfl⟩ := hb
    rw [(key q (h q hq).1 (h q hq).2).1]
    exact (key q (h q hq).1 (h q hq).2).2
  · norm_num [npUint8, ratTruncate]
  · norm_num [npUint8, ratTruncate]
    rfl

/-- A concrete postprocessed mask holding the boundary values. -/
def cMask : NPArray :=
  ⟨[256, 256], [0, 1 / 2, 1]⟩

/-- The concrete mask values all lie in `[0, 1]`. -/
lemma cMask_bounds : ∀ q ∈ cMask.data, 0 ≤ q ∧ q ≤ 1 := by
  intro q hq
  fin_cases hq <;> norm_num

/-- Witness for C6 on the concrete mask. -/
theorem claim_C6_witness :
    (∀ q ∈ cMask.data, 0 ≤ q ∧ q ≤ 1) ∧
    (maskToBytes cMask = cMask.data.map (fun q => (⌊q * 255⌋).toNat) ∧
      (∀ b ∈ maskToBytes cMask, b ≤ 255) ∧
      npUint8 ((0 : ℚ) * 255) = 0 ∧ npUint8 ((1 : ℚ) * 255) = 255) :=
  ⟨cMask_bounds, claim_C6 cMask cMask_bounds⟩

/-- A run of the batch loop in which every enumerated file decodes: every
file is processed, in order, writing `stem + ".png"` for each. -/
lemma runBatch_all_ok (mdl : SegModel) (imgs : List (FileName × Option PILImage))
    (f : FileName → PILImage) :
    ∀ l : List FileName, (∀ n ∈ l, lookupImg imgs n = some (f n)) →
      runBatch mdl imgs l =
        (l.map (fun n => (stem n ++ pngExt, processImage mdl (f n))), true) := by
  intro l
  induction l with
  | nil =>
    intro _
    rfl
  | cons n t ih =>
    intro hl
    have hn : lookupImg imgs n = some (f n) := hl n (List.mem_cons_self n t)
    have ht := ih (fun m hm => hl m (List.mem_cons_of_mem n hm))
    simp [runBatch, hn, ht]

/-- A run of the batch loop that hits an undecodable file: the files before
it are processed in order, then the loop aborts, so neither the failing
file nor any later file produces a write. -/
lemma runBatch_stops (mdl : SegModel) (imgs : List (FileName × Option PILImage))
    (f : FileName → PILImage) (bad : FileName) (post : List FileName)
    (hbad : lookupImg imgs bad = none) :
    ∀ l : List FileName, (∀ n ∈ l, lookupImg imgs n = some (f n)) →
      runBatch mdl imgs (l ++ bad :: post) =
        (l.map (fun n => (stem n ++ pngExt, processImage mdl (f n))), false) := by
  intro l
  induction l with
  | nil =>
    intro _
    simp [runBatch, hbad]
  | cons n t ih =>
    intro hl
    have hn : lookupImg imgs n = some (f n) := hl n (List.mem_cons_self n t)
    have ht := ih (fun m hm => hl m (List.mem_cons_of_mem n hm))
    simp [runBatch, hn, ht]

/-- Claim C3: for every input directory whose JPEG files all decode, the
batch driver processes the `*.jpg` files in lexicographic sorted order of
their names (and exactly those files), and for each input writes the mask
as a PNG whose base filename equals the input's stem — in that order. -/
theorem claim_C3 (mdl : SegModel) (fs : FileSystem) (f : FileName → PILImage)
    (hdec : ∀ n ∈ jpgNames fs, lookupImg fs.images n = some (f n)) :
    List.Sorted (· ≤ ·) (jpgNames fs) ∧
    (jpgNames fs).Perm ((fs.images.map Prod.fst).filter hasJpgExt) ∧
    runBatch mdl fs.images (jpgNames fs) =
      ((jpgNames fs).map (fun n => (stem n ++ pngExt, processImage mdl (f n))), true) ∧
    runScript (some mdl) fs =
      (⟨fs.images, applyWrites fs.masks
          ((jpgNames fs).map (fun n => (stem n ++ pngExt, processImage mdl (f n))))⟩, true) := by
  have hrun := runBatch_all_ok mdl fs.images f (jpgNames fs) hdec
  refine ⟨List.sorted_insertionSort _ _, List.perm_insertionSort _ _, hrun, ?_⟩
  show (FileSystem.mk fs.images (applyWrites fs.masks (runBatch mdl fs.images (jpgNames fs)).1),
      (runBatch mdl fs.images (jpgNames fs)).2) = _
  rw [hrun]

/-- The filenames `a.jpg`, `b.jpg`, `c.jpg`. -/
def nameA : FileName :=
  ['a', '.', 'j', 'p', 'g']

/-- See `nameA`. -/
def nameB : FileName :=
  ['b', '.', 'j', 'p', 'g']

/-- See `nameA`. -/
def nameC : FileName :=
  ['c', '.', 'j', 'p', 'g']

/-- A concrete model returning a fixed raw output array. -/
def cModel : SegModel :=
  fun _ => ⟨[1, 256, 256], List.replicate (256 * 256) 0⟩

/-- A concrete dataset directory holding `c.jpg`, `a.jpg`, `b.jpg` (listed
out of order), all decodable, with an empty `masks/` directory. -/
def cFS : FileSystem :=
  ⟨[(nameC, some constImg), (nameA, some constImg), (nameB, some constImg)], fun _ => none⟩

/-- The driver enumerates the concrete directory in sorted order. -/
lemma cFS_jpgNames : jpgNames cFS = [nameA, nameB, nameC] := by
  decide

/-- Every enumerated file of the concrete directory decodes. -/
lemma cFS_dec : ∀ n ∈ jpgNames cFS, lookupImg cFS.images n = some ((fun _ => constImg) n) := by
  intro n hn
  rw [cFS_jpgNames] at hn
  fin_cases hn <;> rfl

/-- Witness for C3 on the concrete directory `{c.jpg, a.jpg, b.jpg}`. -/
theorem claim_C3_witness :
    (∀ n ∈ jpgNames cFS, lookupImg cFS.images n = some ((fun _ => constImg) n)) ∧
    (List.Sorted (· ≤ ·) (jpgNames cFS) ∧
      (jpgNames cFS).Perm ((cFS.images.map Prod.fst).filter hasJpgExt) ∧
      runBatch cModel cFS.images (jpgNames cFS) =
        ((jpgNames cFS).map (fun n => (stem n ++ pngExt, processImage cModel ((fun _ => constImg) n))), true) ∧
      runScript (some cModel) cFS =
        (⟨cFS.images, applyWrites cFS.masks
            ((jpgNames cFS).map (fun n => (stem n ++ pngExt, processImage cModel ((fun _ => constImg) n))))⟩, true)) :=
  ⟨cFS_dec, claim_C3 cModel cFS (fun _ => constImg) cFS_dec⟩

/-- Claim C4: if loading the model artifact fails at startup, the process
aborts before any image is processed: the run reports failure and the
filesystem (in particular the `masks/` directory) is unchanged. -/
theorem claim_C4 (fs : FileSystem) : runScript none fs = (fs, false) :=
  rfl

/-- Claim C8: if decoding some enumerated input file fails, the error
propagates and aborts the whole run: exactly the files strictly before it
in the sorted order produce writes, and no mask is written for the failing
file or any subsequent file. -/
theorem claim_C8 (mdl : SegModel) (fs : FileSystem) (f : FileName → PILImage)
    (pre post : List FileName) (bad : FileName)
    (hsplit : jpgNames fs = pre ++ bad :: post)
    (hpre : ∀ n ∈ pre, lookupImg fs.images n = some (f n))
    (hbad : lookupImg fs.images bad = none) :
    runBatch mdl fs.images (jpgNames fs) =
      (pre.map (fun n => (stem n ++ pngExt, processImage mdl (f n))), false) := by
  rw [hsplit]
  exact runBatch_stops mdl fs.images f bad post hbad pre hpre

/-- A concrete dataset directory in which `b.jpg` is undecodable. -/
def cFS8 : FileSystem :=
  ⟨[(nameA, some constImg), (nameB, none), (nameC, some constImg)], fun _ => none⟩

/-- Sorted-order split of the concrete directory around the bad file. -/
lemma cFS8_split : jpgNames cFS8 = [nameA] ++ nameB :: [nameC] := by
  decide

/-- The file before the bad one decodes. -/
lemma cFS8_pre : ∀ n ∈ [nameA], lookupImg cFS8.images n = some ((fun _ => constImg) n) := by
  intro n hn
  fin_cases hn
  rfl

/-- Witness for C8: with `b.jpg` undecodable only `a.jpg` is written. -/
theorem claim_C8_witness :
    jpgNames cFS8 = [nameA] ++ nameB :: [nameC] ∧
    (∀ n ∈ [nameA], lookupImg cFS8.images n = some ((fun _ => constImg) n)) ∧
    lookupImg cFS8.images nameB = none ∧
    runBatch cModel cFS8.images (jpgNames cFS8) =
      ([nameA].map (fun n => (stem n ++ pngExt, processImage cModel ((fun _ => constImg) n))), false) :=
  ⟨cFS8_split, cFS8_pre, rfl,
    claim_C8 cModel cFS8 (fun _ => constImg) [nameA] [nameC] nameB cFS8_split cFS8_pre rfl⟩

/-- The value the write sequence leaves at one filename: the last write to
that name, if any. -/
def lastWriteVal : List (FileName × List Nat) → FileName → Option (List Nat)
  | [], _ => none
  | w :: t, k => Option.or (lastWriteVal t k) (if k = w.1 then some w.2 else none)

/-- Applying a write sequence reads back as: the last write to the name if
one exists, otherwise the prior content. -/
lemma applyWrites_char :
    ∀ (ws : List (FileName × List Nat)) (m : FileName → Option (List Nat)) (k : FileName),
      applyWrites m ws k = Option.or (lastWriteVal ws k) (m k) := by
  intro ws
  induction ws with
  | nil =>
    intro m k
    rfl
  | cons w t ih =>
    intro m k
    show applyWrites (writeFile m w.1 w.2) t k = _
    rw [ih]
    show Option.or (lastWriteVal t k) (writeFile m w.1 w.2 k) =
      Option.or (Option.or (lastWriteVal t k) (if k = w.1 then some w.2 else none)) (m k)
    rw [Option.or_assoc]
    unfold writeFile
    by_cases hk : k = w.1
    · simp [hk, Option.or]
    · simp [hk, Option.or]

/-- Replaying the same write sequence over its own result changes
nothing. -/
lemma applyWrites_idem (m : FileName → Option (List Nat)) (ws : List (FileName × List Nat)) :
    applyWrites (applyWrites m ws) ws = applyWrites m ws := by
  funext k
  simp only [applyWrites_char]
  cases lastWriteVal ws k <;> rfl

/-- Claim C7: the pipeline is deterministic: running the driver a second
time over the unchanged input set overwrites the first run's masks with
byte-for-byte identical content, leaving the filesystem (and the reported
outcome) exactly as after the first run. -/
theorem claim_C7 (mdl : SegModel) (fs : FileSystem) :
    runScript (some mdl) ((runScript (some mdl) fs).1) = runScript (some mdl) fs := by
  show (FileSystem.mk fs.images (applyWrites (applyWrites fs.masks (runBatch mdl fs.images (jpgNames fs)).1)
        (runBatch mdl fs.images (jpgNames fs)).1),
      (runBatch mdl fs.images (jpgNames fs)).2) =
    (FileSystem.mk fs.images (applyWrites fs.masks (runBatch mdl fs.images (jpgNames fs)).1),
      (runBatch mdl fs.images (jpgNames fs)).2)
  rw [applyWrites_idem]

/-- After `exif_transpose` the orientation tag is never again one of the
transposing values 2..8. -/
lemma exifTranspose_tag_out (img : PILImage) :
    ∀ k, 2 ≤ k → k ≤ 8 → (exifTranspose img).exifOrientation ≠ k := by
  rcases img with ⟨w, h, p, o⟩
  rcases o with _ | _ | _ | _ | _ | _ | _ | _ | _ | o <;>
    intro k h2 h8 <;> simp [exifTranspose] <;> omega

/-- `exif_transpose` is the identity on an image whose orientation tag is
not one of the transposing values 2..8. -/
lemma exifTranspose_of_tag_out (img : PILImage)
    (h : ∀ k, 2 ≤ k → k ≤ 8 → img.exifOrientation ≠ k) :
    exifTranspose img = img := by
  rcases img with ⟨w, ht, p, o⟩
  rcases o with _ | _ | _ | _ | _ | _ | _ | _ | _ | o
  · rfl
  · rfl
  · exact absurd rfl (h 2 (by norm_num) (by norm_num))
  · exact absurd rfl (h 3 (by norm_num) (by norm_num))
  · exact absurd rfl (h 4 (by norm_num) (by norm_num))
  · exact absurd rfl (h 5 (by norm_num) (by norm_num))
  · exact absurd rfl (h 6 (by norm_num) (by norm_num))
  · exact absurd rfl (h 7 (by norm_num) (by norm_num))
  · exact absurd rfl (h 8 (by norm_num) (by norm_num))
  · rfl

/-- `exif_transpose` is idempotent: the corrected image carries no
transposing orientation tag, so a second correction is the identity. -/
lemma exifTranspose_idem (img : PILImage) :
    exifTranspose (exifTranspose img) = exifTranspose img :=
  exifTranspose_of_tag_out (exifTranspose img) (exifTranspose_tag_out img)

/-- Claim C9: for every input image carrying EXIF orientation tag 6 (a 90
degree rotation), preprocessing applies the orientation correction before
resizing, so the rotated input's resized 256x256 image is pixel-identical
to the resize of the upright (already corrected, non-rotated) reference
image of the same scene. -/
theorem claim_C9 (img : PILImage) (_h : img.exifOrientation = 6) :
    get_resized_image img = get_resized_image (exifTranspose img) := by
  unfold get_resized_image
  rw [exifTranspose_idem]

/-- A concrete image carrying EXIF orientation tag 6. -/
def img6 : PILImage :=
  ⟨2, 3, fun _ _ _ => 7, 6⟩

/-- Witness for C9 on the concrete rotated image. -/
theorem claim_C9_witness :
    img6.exifOrientation = 6 ∧
      get_resized_image img6 = get_resized_image (exifTranspose img6) :=
  ⟨rfl, claim_C9 img6 rfl⟩

/-- Claim C10: EXIF-orientation correction is idempotent on this pipeline's
images: the image produced by `get_resized_image` has already been
orientation-corrected (and resizing preserves the cleared tag), so the
redundant second `exif_transpose` call in the batch loop leaves the pixel
data unchanged and therefore does not change the mask produced for any
image, whatever the model computes. -/
theorem claim_C10 (mdl : SegModel) (img : PILImage) :
    exifTranspose (get_resized_image img) = get_resized_image img ∧
    get_segmentation_mask mdl (exifTranspose (get_resized_image img)) =
      get_segmentation_mask mdl (get_resized_image img) := by
  have h1 : exifTranspose (get_resized_image img) = get_resized_image img := by
    apply exifTranspose_of_tag_out
    have : (get_resized_image img).exifOrientation = (exifTranspose img).exifOrientation := rfl
    rw [this]
    exact exifTranspose_tag_out img
  exact ⟨h1, by rw [h1]⟩
